import Mathlib

/-!
# Verification of the golikejs concurrency core

A shallow embedding of the cancellation-context, channel, select and Once
primitives of the `okdaichi/golikejs` repository, together with proofs of the
behavioural claims made by its specification.

The embedding is faithful to the TypeScript source:
* `src/context/context.ts` — `DefaultContext` (cancel / err / done, child
  derivation, `watchPromise` settlement);
* `src/log/slog/mod.ts` — `Channel` (ring buffer, send / receive /
  trySend / tryReceive / close / processSendWaiters, hasData / canSend) and
  the synchronous validation / default-fast-path prefix of `select`;
* `src/sync/once.ts` — `Once.do` as a state machine over the tri-state
  `#state` plus the memoized `#promise`.

Asynchronous settlement is made explicit: operations return, besides the new
state, the list of settlement events (`Ev`) they perform on queued waiters,
identified by numeric ids.  A queued operation "settles" exactly when some
later operation emits an event carrying its id; an operation removed from the
queues without an event for it is left pending forever.
-/

namespace Golikejs

/-! ## Context (src/context/context.ts) -/

/-- Error values that can become a context's cause.  `contextCancelled`
mirrors `ContextCancelledError`, `contextTimeout` mirrors
`ContextTimeoutError`, `other` stands for any other `Error`. -/
inductive Err where
  | contextCancelled (msg : String)
  | contextTimeout (msg : String)
  | other (msg : String)
  deriving DecidableEq, Repr

/-- The default `ContextCancelledError` (`new ContextCancelledError()`). -/
def defaultCancelled : Err := .contextCancelled "Context cancelled"

/-- State of a `DefaultContext`: the `#err` field (undefined ⇔ `none`) and
whether the done promise is settled (`#resolve` fired or `#donePromise`
created already resolved).  The done promise itself is lazily allocated in
the source; what is observable is only whether it is settled. -/
structure Ctx where
  err : Option Err
  settled : Bool
  deriving DecidableEq, Repr

/-- A freshly constructed `DefaultContext` with no parent (or with a parent
that is not yet done): `#err` undefined, done promise pending. -/
def Ctx.init : Ctx := ⟨none, false⟩

/-- `DefaultContext.cancel(err?)`.  The argument models the three JS call
shapes: `none` = called with no argument (`arguments.length === 0`),
`some none` = called with an explicit `undefined`, `some (some e)` = called
with an error `e`.

Source: if `#err !== undefined` return (the "idempotent" guard); otherwise
set `#err` to the default `ContextCancelledError` when no argument was
passed, or to the argument as-is (possibly `undefined`); then settle the
done promise. -/
def Ctx.cancel (c : Ctx) (arg : Option (Option Err)) : Ctx :=
  if c.err.isSome then c
  else
    { err := match arg with
        | none => some defaultCancelled
        | some a => a
      settled := true }

/-- `new DefaultContext(parent)` when a parent is supplied, observed
synchronously at the end of the constructor.  If `parent.err()` is a
concrete error, the constructor calls `this.cancel(parentErr)` (one
explicit argument) and returns; otherwise it only subscribes to
`parent.done()` (an asynchronous propagation, which has not yet fired when
the constructor returns), leaving the child in the initial state. -/
def mkChild (parentErr : Option Err) : Ctx :=
  match parentErr with
  | some e => Ctx.init.cancel (some (some e))
  | none => Ctx.init

/-- `watchPromise`'s settlement callbacks on the derived context: a promise
resolution calls `context.cancel(undefined)` (explicit `undefined`,
"finished without an error"); a rejection with error `e` calls
`context.cancel(e)`.  (Non-`Error` rejection reasons are wrapped into an
`Error` by the source before the call; `Err.other` stands for the wrapped
value.) -/
def watchPromiseSettle (c : Ctx) (outcome : Option Err) : Ctx :=
  match outcome with
  | none => c.cancel (some none)
  | some e => c.cancel (some (some e))

/-! ## Channel (src/log/slog/mod.ts, `class Channel<T>`) -/

/-- An entry of `#sendWaiters`: the queued value together with an id
standing for the pending promise's `resolve` handle. -/
structure SendWaiter (α : Type) where
  id : Nat
  value : α
  deriving DecidableEq, Repr

/-- A settlement event performed on a queued waiter.
`recvResolved id v ok` is `waiter.resolve([v, ok])` on the receive waiter
with that id; `sendResolved id` is `waiter.resolve()` on the send waiter
with that id.  The source never rejects a waiter's promise, so there is no
rejection event. -/
inductive Ev (α : Type) where
  | recvResolved (id : Nat) (value : Option α) (ok : Bool)
  | sendResolved (id : Nat)
  deriving DecidableEq, Repr

/-- State of a `Channel<T>`.  `buffer` models the JS array allocated as
`new Array(capacity)` (a hole / `undefined` entry is `none`); when
`capacity = 0` the source keeps `#buffer = null`, modelled as `[]`.
`receiveWaiters` holds the ids of the pending receive promises in FIFO
order. -/
structure Channel (α : Type) where
  buffer : List (Option α)
  capacity : Nat
  head : Nat
  tail : Nat
  count : Nat
  closed : Bool
  sendWaiters : List (SendWaiter α)
  receiveWaiters : List Nat
  deriving DecidableEq, Repr

namespace Channel

/-- `new Channel(capacity)`.  The source throws for a negative capacity;
capacities are `Nat` here, so that branch is unreachable. -/
def new (α : Type) (capacity : Nat) : Channel α :=
  { buffer := if 0 < capacity then List.replicate capacity none else []
    capacity := capacity
    head := 0
    tail := 0
    count := 0
    closed := false
    sendWaiters := []
    receiveWaiters := [] }

/-- The ring-buffer write `buf[tail] = value; tail = (tail+1) % capacity;
count++` shared by `send`, `trySend` and `#processSendWaiters`. -/
def bufWrite (ch : Channel α) (v : α) : Channel α :=
  { ch with
    buffer := ch.buffer.set ch.tail (some v)
    tail := (ch.tail + 1) % ch.capacity
    count := ch.count + 1 }

/-- Outcome of `send` as seen by its caller: the thrown error, an
immediately resolved promise, or a promise left pending in `#sendWaiters`. -/
inductive SendRes where
  | threw (msg : String)
  | completed
  | pending
  deriving DecidableEq, Repr

/-- `Channel.send(value)`.  `fresh` is the id given to the pending promise
if the sender has to queue.  Returns the caller-visible outcome, the new
channel state and the settlement events performed.

The source checks `#receiveWaiters` twice and the buffer-space condition
twice (lines 166–199); each second check re-tests the very condition whose
failure fell through to it, so the duplicates are unreachable and are not
repeated here. -/
def send (ch : Channel α) (v : α) (fresh : Nat) :
    SendRes × Channel α × List (Ev α) :=
  if ch.closed then
    (.threw "Channel: send on closed channel", ch, [])
  else
    match ch.receiveWaiters with
    | w :: rest =>
      (.completed, { ch with receiveWaiters := rest }, [.recvResolved w (some v) true])
    | [] =>
      if 0 < ch.capacity ∧ ch.count < ch.capacity then
        (.completed, ch.bufWrite v, [])
      else
        (.pending, { ch with sendWaiters := ch.sendWaiters ++ [⟨fresh, v⟩] }, [])

/-- Result of the loop in `#processSendWaiters`, threaded through
`drainLoop`. -/
structure DrainRes (α : Type) where
  buffer : List (Option α)
  tail : Nat
  count : Nat
  waiters : List (SendWaiter α)
  events : List (Ev α)

/-- The `while (count < capacity && sendWaiters.length > 0)` loop of
`#processSendWaiters`: shift the head sender, write its value at `tail`,
and resolve its promise. -/
def drainLoop (cap : Nat) (buffer : List (Option α)) (tail count : Nat) :
    List (SendWaiter α) → DrainRes α
  | [] => ⟨buffer, tail, count, [], []⟩
  | w :: rest =>
    if count < cap then
      let r := drainLoop cap (buffer.set tail (some w.value)) ((tail + 1) % cap)
        (count + 1) rest
      ⟨r.buffer, r.tail, r.count, r.waiters, .sendResolved w.id :: r.events⟩
    else
      ⟨buffer, tail, count, w :: rest, []⟩

/-- `Channel.#processSendWaiters()`: move queued senders into freed buffer
space, resolving each moved sender's promise. -/
def processSendWaiters (ch : Channel α) : Channel α × List (Ev α) :=
  let r := drainLoop ch.capacity ch.buffer ch.tail ch.count ch.sendWaiters
  ({ ch with buffer := r.buffer, tail := r.tail, count := r.count,
             sendWaiters := r.waiters }, r.events)

/-- Outcome of `receive` / `tryReceive` as seen by the caller: the
`[value, ok]` pair, or (for `receive` only) a promise left pending in
`#receiveWaiters`. -/
inductive RecvRes (α : Type) where
  | value (v : Option α) (ok : Bool)
  | pending
  deriving DecidableEq, Repr

/-- `Channel.receive()`.  `fresh` is the id given to the pending promise if
the receiver has to queue.  The source repeats the `#closed` check (lines
231–238); the duplicate re-tests an unchanged condition and is not
repeated here. -/
def receive (ch : Channel α) (fresh : Nat) :
    RecvRes α × Channel α × List (Ev α) :=
  if 0 < ch.count then
    let v := ch.buffer.getD ch.head none
    let ch1 : Channel α :=
      { ch with
        buffer := ch.buffer.set ch.head none
        head := (ch.head + 1) % ch.capacity
        count := ch.count - 1 }
    let (ch2, evs) := ch1.processSendWaiters
    (.value v true, ch2, evs)
  else
    match ch.sendWaiters with
    | w :: rest =>
      (.value (some w.value) true, { ch with sendWaiters := rest }, [.sendResolved w.id])
    | [] =>
      if ch.closed then
        (.value none false, ch, [])
      else
        (.pending, { ch with receiveWaiters := ch.receiveWaiters ++ [fresh] }, [])

/-- `Channel.close()`.  Idempotent.  The loop over `#sendWaiters` has an
empty body ("In a real implementation, we'd reject these promises / For
simplicity, we'll just clear the queue"), so closing emits no event for any
queued sender — it only clears the queue.  Every queued receiver is
resolved with `[undefined, false]`. -/
def close (ch : Channel α) : Channel α × List (Ev α) :=
  if ch.closed then
    (ch, [])
  else
    ({ ch with closed := true, sendWaiters := [], receiveWaiters := [] },
      ch.receiveWaiters.map (fun id => .recvResolved id none false))

/-- `Channel.tryReceive()`. -/
def tryReceive (ch : Channel α) : RecvRes α × Channel α × List (Ev α) :=
  if 0 < ch.count then
    let v := ch.buffer.getD ch.head none
    let ch1 : Channel α :=
      { ch with
        buffer := ch.buffer.set ch.head none
        head := (ch.head + 1) % ch.capacity
        count := ch.count - 1 }
    let (ch2, evs) := ch1.processSendWaiters
    (.value v true, ch2, evs)
  else
    match ch.sendWaiters with
    | w :: rest =>
      (.value (some w.value) true, { ch with sendWaiters := rest }, [.sendResolved w.id])
    | [] =>
      (.value none false, ch, [])

/-- `Channel.trySend(value)`. -/
def trySend (ch : Channel α) (v : α) : Bool × Channel α × List (Ev α) :=
  if ch.closed then
    (false, ch, [])
  else
    match ch.receiveWaiters with
    | w :: rest =>
      (true, { ch with receiveWaiters := rest }, [.recvResolved w (some v) true])
    | [] =>
      if 0 < ch.capacity ∧ ch.count < ch.capacity then
        (true, ch.bufWrite v, [])
      else
        (false, ch, [])

/-- `Channel.hasData()` (used by `select`). -/
def hasData (ch : Channel α) : Bool :=
  0 < ch.count || !ch.sendWaiters.isEmpty

/-- `Channel.canSend()` (used by `select`). -/
def canSend (ch : Channel α) : Bool :=
  !ch.receiveWaiters.isEmpty || (0 < ch.capacity && ch.count < ch.capacity)

end Channel

/-! ## select (src/log/slog/mod.ts, `select`) -/

/-- A `SelectCase`: the source classifies by duck-typing — an object with a
`default` property is the default case, else one with a `value` property is
a send case, else a receive case. -/
inductive SelectCase (α : Type) where
  | recv (ch : Channel α)
  | send (ch : Channel α) (v : α)
  | dflt
  deriving DecidableEq

/-- Whether a case is the default case (`"default" in case_`). -/
def SelectCase.isDefault : SelectCase α → Bool
  | .dflt => true
  | _ => false

/-- Accumulated classification of the cases: the channels of the receive
cases, the channel/value pairs of the send cases (each in arrival order),
and whether a default case was seen. -/
structure ClassifyRes (α : Type) where
  recvs : List (Channel α)
  sends : List (Channel α × α)
  hasDefault : Bool

/-- The single-pass classification loop of `select` (lines 446–455):
partition the cases, throwing `"select: multiple default cases not
allowed"` on a second default. -/
def classifyCases : List (SelectCase α) → Bool → Except String (ClassifyRes α)
  | [], seen => .ok ⟨[], [], seen⟩
  | c :: rest, seen =>
    match c with
    | .dflt =>
      if seen then .error "select: multiple default cases not allowed"
      else classifyCases rest true
    | .send ch v =>
      (classifyCases rest seen).map fun r => { r with sends := (ch, v) :: r.sends }
    | .recv ch =>
      (classifyCases rest seen).map fun r => { r with recvs := ch :: r.recvs }

/-- Outcome of the synchronous prefix of `select` (lines 435–465): the
thrown validation error, the default fast path (the default action runs and
the function returns — no channel operation is started and nothing
suspends), or falling through to the racing phase where one channel
operation per non-default case is started. -/
inductive SelectOutcome where
  | error (msg : String)
  | defaultRan
  | race
  deriving DecidableEq, Repr

/-- The synchronous prefix of `select(cases)`: the empty-cases check, the
classification pass, and the default fast path (`if (defaultCase) { ... }`
with `hasReadyOperation` computed from `hasData` / `canSend`). -/
def selectSync (cases : List (SelectCase α)) : SelectOutcome :=
  if cases.length = 0 then .error "select: no cases provided"
  else
    match classifyCases cases false with
    | .error m => .error m
    | .ok r =>
      if r.hasDefault then
        let hasReady := r.recvs.any Channel.hasData ||
          r.sends.any fun p => p.1.canSend
        if !hasReady then .defaultRan else .race
      else .race

/-! ## Once (src/sync/once.ts) -/

/-- State of a `Once`: `#state` (0 = not started, 1 = running, 2 = done)
and `#promise`, identified by the numeric id of the invocation whose
outcome it memoizes. -/
structure OnceState where
  state : Nat
  promise : Option Nat
  deriving DecidableEq, Repr

namespace OnceState

/-- `new Once()`. -/
def init : OnceState := ⟨0, none⟩

/-- The synchronous body of `Once.do(f)` up to returning `#promise`:
fast path when `#state === 2`; when `#state === 0` set `#state = 1` and
store the freshly created promise (id `fresh`), which is the only path that
invokes `f`; otherwise (`#state === 1`) return the stored promise.
Returns the new state, the id of the promise handed to this caller, and
whether this call started `f`.  (`getD fresh` is unreachable filler: a
state ≠ 0 always has a stored promise.) -/
def doCall (o : OnceState) (fresh : Nat) : OnceState × Nat × Bool :=
  if o.state = 2 then (o, o.promise.getD fresh, false)
  else if o.state = 0 then (⟨1, some fresh⟩, fresh, true)
  else (o, o.promise.getD fresh, false)

/-- The `finally` block of the wrapped invocation: `#state = 2` once `f`
settles.  The callback exists only while an invocation is running, so a
`finish` in any other state cannot occur and is a no-op.  `#promise` is
untouched. -/
def finish (o : OnceState) : OnceState :=
  if o.state = 1 then { o with state := 2 } else o

/-- An event in the life of a `Once`: a caller entering `do`, or the
running invocation settling. -/
inductive Op where
  | call
  | finish
  deriving DecidableEq, Repr

/-- Run a sequence of events against a `Once`, handing each `call` the next
fresh promise id (the running index); collects, per call, the promise id
that caller received and whether the call started `f`. -/
def run : OnceState → Nat → List Op → OnceState × List (Nat × Bool)
  | o, _, [] => (o, [])
  | o, n, .call :: rest =>
    let s := o.doCall n
    let r := run s.1 (n + 1) rest
    (r.1, (s.2.1, s.2.2) :: r.2)
  | o, n, .finish :: rest => run o.finish (n + 1) rest

end OnceState

/-! ## Channel invariants and derived runs -/

namespace Channel

/-- The state invariants of a channel, as maintained by the source:
the buffered count never exceeds the capacity; buffered values and waiting
receivers are never both non-empty; and the bookkeeping facts that make the
ring buffer well-formed (`#buffer` has length `capacity` and `#head`,
`#tail` stay below it when `capacity > 0`; a capacity-0 channel has
`#buffer = null` and never buffers). -/
def Inv (ch : Channel α) : Prop :=
  ch.count ≤ ch.capacity ∧
  (0 < ch.count → ch.receiveWaiters = []) ∧
  (0 < ch.capacity →
    ch.buffer.length = ch.capacity ∧ ch.head < ch.capacity ∧ ch.tail < ch.capacity) ∧
  (ch.capacity = 0 → ch.count = 0 ∧ ch.buffer = [])

instance (ch : Channel α) [DecidableEq α] : Decidable ch.Inv := by
  unfold Inv; infer_instance

/-- The logical FIFO content of the ring buffer: the `count` entries
starting at `head`, in delivery order. -/
def ringItems (ch : Channel α) : List (Option α) :=
  (List.range ch.count).map fun i => ch.buffer.getD ((ch.head + i) % ch.capacity) none

/-- `n` consecutive `receive` calls (each would only queue a waiter if it
found nothing, which does not happen in the closed-drain runs this is used
for; a `pending` outcome stops the run). -/
def receiveAll : Channel α → Nat → List (Option α × Bool) × Channel α
  | ch, 0 => ([], ch)
  | ch, n + 1 =>
    match ch.receive 0 with
    | (.value v ok, ch', _) =>
      let r := receiveAll ch' n
      ((v, ok) :: r.1, r.2)
    | (.pending, ch', _) => ([], ch')

/-- Consecutive `trySend` calls, one per value, collecting each result. -/
def trySendN : Channel α → List α → List Bool × Channel α
  | ch, [] => ([], ch)
  | ch, v :: vs =>
    let s := ch.trySend v
    let r := trySendN s.2.1 vs
    (s.1 :: r.1, r.2)

end Channel

/-! ## Claim theorems -/

namespace Channel

/-- With capacity 0 the `#processSendWaiters` loop body never runs. -/
lemma drainLoop_cap0 (buf : List (Option α)) (tl cnt : Nat)
    (ws : List (SendWaiter α)) :
    drainLoop 0 buf tl cnt ws = ⟨buf, tl, cnt, ws, []⟩ := by
  cases ws <;> simp [drainLoop]

/-- The `#processSendWaiters` loop keeps `count ≤ capacity`, preserves the
buffer's length, and keeps `tail` below the capacity. -/
lemma drainLoop_spec (cap : Nat) (ws : List (SendWaiter α)) :
    ∀ (buf : List (Option α)) (tl cnt : Nat), cnt ≤ cap →
    (drainLoop cap buf tl cnt ws).count ≤ cap ∧
    (drainLoop cap buf tl cnt ws).buffer.length = buf.length ∧
    (tl < cap → (drainLoop cap buf tl cnt ws).tail < cap) := by
  induction ws with
  | nil => intro buf tl cnt h; simp [drainLoop, h]
  | cons w rest ih =>
    intro buf tl cnt h
    by_cases hc : cnt < cap
    · have hcap : 0 < cap := Nat.lt_of_le_of_lt (Nat.zero_le _) hc
      obtain ⟨h1, h2, h3⟩ := ih (buf.set tl (some w.value)) ((tl + 1) % cap)
        (cnt + 1) hc
      simp only [drainLoop, if_pos hc]
      exact ⟨h1, by simpa using h2, fun _ => h3 (Nat.mod_lt _ hcap)⟩
    · simp [drainLoop, hc, h]

/-- `send` preserves the channel invariants. -/
lemma send_inv (ch : Channel α) (v : α) (fresh : Nat) (h : ch.Inv) :
    (ch.send v fresh).2.1.Inv := by
  obtain ⟨buf, cap, hd, tl, cnt, cl, sw, rw⟩ := ch
  obtain ⟨hcnt, hboth, hring, hcap0⟩ := h
  simp only [Inv] at hcnt hboth hring hcap0 ⊢
  unfold send bufWrite
  dsimp only at hcnt hboth hring hcap0 ⊢
  by_cases hcl : cl
  · simp only [if_pos hcl]
    exact ⟨hcnt, hboth, hring, hcap0⟩
  · simp only [if_neg hcl]
    cases hrw : rw with
    | cons w rest =>
      dsimp only
      refine ⟨hcnt, fun hc => ?_, hring, hcap0⟩
      have := hboth hc; simp [hrw] at this
    | nil =>
      subst hrw
      by_cases hsp : 0 < cap ∧ cnt < cap
      · simp only [if_pos hsp]
        refine ⟨hsp.2, fun _ => trivial, fun hc => ?_, fun hc => absurd hc (by omega)⟩
        obtain ⟨hl, hh, _⟩ := hring hc
        exact ⟨by simpa using hl, hh, Nat.mod_lt _ hc⟩
      · simp only [if_neg hsp]
        exact ⟨hcnt, fun _ => trivial, hring, hcap0⟩

/-- `trySend` preserves the channel invariants. -/
lemma trySend_inv (ch : Channel α) (v : α) (h : ch.Inv) :
    (ch.trySend v).2.1.Inv := by
  obtain ⟨buf, cap, hd, tl, cnt, cl, sw, rw⟩ := ch
  obtain ⟨hcnt, hboth, hring, hcap0⟩ := h
  simp only [Inv] at hcnt hboth hring hcap0 ⊢
  unfold trySend bufWrite
  dsimp only at hcnt hboth hring hcap0 ⊢
  by_cases hcl : cl
  · simp only [if_pos hcl]
    exact ⟨hcnt, hboth, hring, hcap0⟩
  · simp only [if_neg hcl]
    cases hrw : rw with
    | cons w rest =>
      dsimp only
      refine ⟨hcnt, fun hc => ?_, hring, hcap0⟩
      have := hboth hc; simp [hrw] at this
    | nil =>
      subst hrw
      by_cases hsp : 0 < cap ∧ cnt < cap
      · simp only [if_pos hsp]
        refine ⟨hsp.2, fun _ => trivial, fun hc => ?_, fun hc => absurd hc (by omega)⟩
        obtain ⟨hl, hh, _⟩ := hring hc
        exact ⟨by simpa using hl, hh, Nat.mod_lt _ hc⟩
      · simp only [if_neg hsp]
        exact ⟨hcnt, fun _ => trivial, hring, hcap0⟩

/-- The buffered-take path shared by `receive` and `tryReceive` (take at
`head`, then `#processSendWaiters`) preserves the channel invariants. -/
lemma take_then_drain_inv (ch : Channel α) (h : ch.Inv) (hc : 0 < ch.count) :
    ((({ ch with
        buffer := ch.buffer.set ch.head none
        head := (ch.head + 1) % ch.capacity
        count := ch.count - 1 } : Channel α)).processSendWaiters).1.Inv := by
  obtain ⟨buf, cap, hd, tl, cnt, cl, sw, rw⟩ := ch
  obtain ⟨hcnt, hboth, hring, hcap0⟩ := h
  simp only [Inv] at hcnt hboth hring hcap0 ⊢
  dsimp only at hcnt hboth hring hcap0 hc ⊢
  have hcap : 0 < cap := by
    rcases Nat.eq_zero_or_pos cap with h0 | h0
    · exact absurd (hcap0 h0).1 (by omega)
    · exact h0
  obtain ⟨hl, hh, ht⟩ := hring hcap
  unfold processSendWaiters
  dsimp only
  obtain ⟨d1, d2, d3⟩ := drainLoop_spec cap sw (buf.set hd none) tl (cnt - 1)
    (by omega)
  refine ⟨d1, fun _ => hboth hc,
    fun _ => ⟨by simp only [List.length_set] at d2; omega, Nat.mod_lt _ hcap, d3 ht⟩,
    fun hz => absurd hz (by omega)⟩

/-- `receive` preserves the channel invariants. -/
lemma receive_inv (ch : Channel α) (fresh : Nat) (h : ch.Inv) :
    (ch.receive fresh).2.1.Inv := by
  have hdrain := fun hc => take_then_drain_inv ch h hc
  obtain ⟨buf, cap, hd, tl, cnt, cl, sw, rw⟩ := ch
  obtain ⟨hcnt, hboth, hring, hcap0⟩ := h
  simp only [Inv] at hcnt hboth hring hcap0 ⊢
  unfold receive
  dsimp only at hcnt hboth hring hcap0 hdrain ⊢
  by_cases hc : 0 < cnt
  · have := hdrain hc
    simp only [if_pos hc]
    exact this
  · simp only [if_neg hc]
    cases hsw : sw with
    | cons w rest =>
      dsimp only
      exact ⟨hcnt, hboth, hring, hcap0⟩
    | nil =>
      by_cases hcl : cl
      · simp only [if_pos hcl]
        exact ⟨hcnt, hboth, hring, hcap0⟩
      · simp only [if_neg hcl]
        exact ⟨hcnt, fun hc' => absurd hc' hc, hring, hcap0⟩

/-- `tryReceive` preserves the channel invariants. -/
lemma tryReceive_inv (ch : Channel α) (h : ch.Inv) :
    ch.tryReceive.2.1.Inv := by
  have hdrain := fun hc => take_then_drain_inv ch h hc
  obtain ⟨buf, cap, hd, tl, cnt, cl, sw, rw⟩ := ch
  obtain ⟨hcnt, hboth, hring, hcap0⟩ := h
  simp only [Inv] at hcnt hboth hring hcap0 ⊢
  unfold tryReceive
  dsimp only at hcnt hboth hring hcap0 hdrain ⊢
  by_cases hc : 0 < cnt
  · have := hdrain hc
    simp only [if_pos hc]
    exact this
  · simp only [if_neg hc]
    cases hsw : sw with
    | cons w rest =>
      dsimp only
      exact ⟨hcnt, hboth, hring, hcap0⟩
    | nil => exact ⟨hcnt, hboth, hring, hcap0⟩

/-- `close` preserves the channel invariants. -/
lemma close_inv (ch : Channel α) (h : ch.Inv) : ch.close.1.Inv := by
  obtain ⟨buf, cap, hd, tl, cnt, cl, sw, rw⟩ := ch
  obtain ⟨hcnt, hboth, hring, hcap0⟩ := h
  simp only [Inv] at hcnt hboth hring hcap0 ⊢
  unfold close
  dsimp only at hcnt hboth hring hcap0 ⊢
  by_cases hcl : cl
  · simp only [if_pos hcl]
    exact ⟨hcnt, hboth, hring, hcap0⟩
  · simp only [if_neg hcl]
    exact ⟨hcnt, fun _ => trivial, hring, hcap0⟩

end Channel

/-- C4: every channel operation preserves the state invariants
(`0 ≤ count ≤ capacity`; buffered values and waiting receivers never both
non-empty; plus the ring-buffer well-formedness facts bundled in
`Channel.Inv`), the invariants hold of a freshly constructed channel, and
once the channel is closed neither `send` nor `trySend` succeeds: `send`
throws the closed-channel error and `trySend` returns `false`, both leaving
the state unchanged and settling nothing. -/
theorem C4_operations_preserve_invariants (ch : Channel α) (v : α) (fresh cap : Nat)
    (h : ch.Inv) :
    (Channel.new α cap).Inv ∧
    (ch.send v fresh).2.1.Inv ∧
    (ch.receive fresh).2.1.Inv ∧
    (ch.trySend v).2.1.Inv ∧
    ch.tryReceive.2.1.Inv ∧
    ch.close.1.Inv ∧
    (ch.closed = true →
      ch.send v fresh = (.threw "Channel: send on closed channel", ch, []) ∧
      ch.trySend v = (false, ch, [])) := by
  refine ⟨?_, Channel.send_inv ch v fresh h, Channel.receive_inv ch fresh h,
    Channel.trySend_inv ch v h, Channel.tryReceive_inv ch h,
    Channel.close_inv ch h, fun hcl => ?_⟩
  · unfold Channel.Inv Channel.new
    by_cases hc : 0 < cap <;> simp [hc]
  · constructor <;> simp [Channel.send, Channel.trySend, hcl]

/-- Witness for `C4_operations_preserve_invariants` on a concrete channel
holding one buffered value, one queued sender and a closed flag. -/
theorem C4_operations_preserve_invariants_witness :
    (Channel.mk [some 7, none] 2 0 1 1 true [⟨3, 9⟩] [] : Channel Nat).Inv ∧
    ((Channel.new Nat 4).Inv ∧
      ((Channel.mk [some 7, none] 2 0 1 1 true [⟨3, 9⟩] [] : Channel Nat).send 5 0).2.1.Inv ∧
      ((Channel.mk [some 7, none] 2 0 1 1 true [⟨3, 9⟩] [] : Channel Nat).receive 0).2.1.Inv ∧
      ((Channel.mk [some 7, none] 2 0 1 1 true [⟨3, 9⟩] [] : Channel Nat).trySend 5).2.1.Inv ∧
      (Channel.mk [some 7, none] 2 0 1 1 true [⟨3, 9⟩] [] : Channel Nat).tryReceive.2.1.Inv ∧
      (Channel.mk [some 7, none] 2 0 1 1 true [⟨3, 9⟩] [] : Channel Nat).close.1.Inv ∧
      ((Channel.mk [some 7, none] 2 0 1 1 true [⟨3, 9⟩] [] : Channel Nat).closed = true →
        (Channel.mk [some 7, none] 2 0 1 1 true [⟨3, 9⟩] [] : Channel Nat).send 5 0 =
          (.threw "Channel: send on closed channel",
            Channel.mk [some 7, none] 2 0 1 1 true [⟨3, 9⟩] [], []) ∧
        (Channel.mk [some 7, none] 2 0 1 1 true [⟨3, 9⟩] [] : Channel Nat).trySend 5 =
          (false, Channel.mk [some 7, none] 2 0 1 1 true [⟨3, 9⟩] [], []))) :=
  ⟨by decide,
    C4_operations_preserve_invariants (Channel.mk [some 7, none] 2 0 1 1 true [⟨3, 9⟩] [])
      5 0 4 (by decide)⟩

namespace Channel

/-- Stepping an in-range index around the ring never lands back on itself
within one lap. -/
lemma ring_step_ne (cap hd j : Nat) (hhd : hd < cap) (hj0 : 0 < j)
    (hj : j < cap) : (hd + j) % cap ≠ hd := by
  intro heq
  by_cases h2 : hd + j < cap
  · rw [Nat.mod_eq_of_lt h2] at heq; omega
  · rw [Nat.mod_eq_sub_mod (by omega), Nat.mod_eq_of_lt (by omega)] at heq
    omega

/-- `#processSendWaiters` with an empty sender queue changes nothing and
settles nothing. -/
lemma processSendWaiters_nil (ch : Channel α) (h : ch.sendWaiters = []) :
    ch.processSendWaiters = (ch, []) := by
  obtain ⟨buf, cap, hd, tl, cnt, cl, sw, rw⟩ := ch
  subst h
  simp [processSendWaiters, drainLoop]

/-- Taking the element at `head` out of a non-empty ring buffer removes
exactly the first entry of its FIFO content. -/
lemma ringItems_take_step (ch : Channel α) (h : ch.Inv) (hc : 0 < ch.count) :
    ch.ringItems = ch.buffer.getD ch.head none ::
      (({ ch with
          buffer := ch.buffer.set ch.head none
          head := (ch.head + 1) % ch.capacity
          count := ch.count - 1 } : Channel α)).ringItems := by
  obtain ⟨hcnt, _, hring, hcap0⟩ := h
  have hcap : 0 < ch.capacity := by
    rcases Nat.eq_zero_or_pos ch.capacity with h0 | h0
    · exact absurd (hcap0 h0).1 (by omega)
    · exact h0
  obtain ⟨hl, hh, _⟩ := hring hcap
  obtain ⟨k, hk⟩ : ∃ k, ch.count = k + 1 := ⟨ch.count - 1, by omega⟩
  unfold ringItems
  dsimp only
  rw [hk, List.range_succ_eq_map, List.map_cons, Nat.add_sub_cancel]
  congr 1
  · rw [Nat.add_zero, Nat.mod_eq_of_lt hh]
  · rw [List.map_map]
    refine List.map_congr_left fun i hi => ?_
    have hik : i < k := List.mem_range.mp hi
    have hne : ch.head ≠ (ch.head + 1 + i) % ch.capacity := by
      rw [Nat.add_assoc]
      exact (ring_step_ne ch.capacity ch.head (1 + i) hh (by omega) (by omega)).symm
    have hidx : ch.head + 1 + i = ch.head + Nat.succ i := by omega
    simp only [Function.comp_apply, Nat.mod_add_mod]
    rw [List.getD_eq_getElem?_getD, List.getD_eq_getElem?_getD,
      List.getElem?_set_ne hne, hidx]

/-- On a closed channel with an empty sender queue, a `receive` that finds
nothing returns `[undefined, false]`. -/
lemma receive_closed_empty (ch : Channel α) (fresh : Nat) (h0 : ch.count = 0)
    (hsw : ch.sendWaiters = []) (hcl : ch.closed = true) :
    ch.receive fresh = (.value none false, ch, []) := by
  obtain ⟨buf, cap, hd, tl, cnt, cl, sw, rw⟩ := ch
  dsimp only at h0 hsw hcl
  subst h0 hsw hcl
  simp [receive]

/-- Unfolding one step of `receiveAll`. -/
lemma receiveAll_succ (ch : Channel α) (n : Nat) :
    receiveAll ch (n + 1) =
      match ch.receive 0 with
      | (.value v ok, ch', _) => ((v, ok) :: (receiveAll ch' n).1, (receiveAll ch' n).2)
      | (.pending, ch', _) => ([], ch') := rfl

/-- A `receive` that finds a non-empty buffer and no queued sender returns
the entry at `head` with `ok = true`. -/
lemma receive_first (ch : Channel α) (hc : 0 < ch.count)
    (hsw : ch.sendWaiters = []) :
    (ch.receive 0).1 = .value (ch.buffer.getD ch.head none) true := by
  have hps := processSendWaiters_nil
    ({ ch with
        buffer := ch.buffer.set ch.head none
        head := (ch.head + 1) % ch.capacity
        count := ch.count - 1 } : Channel α) (by exact hsw)
  simp only [receive, if_pos hc, hps]

/-- Draining a closed channel with an empty sender queue: `count`
consecutive receives return exactly the buffered values in FIFO order,
each with `ok = true`, and leave an empty, still-closed channel. -/
lemma drain_closed (n : Nat) : ∀ ch : Channel α, ch.Inv → ch.closed = true →
    ch.sendWaiters = [] → ch.count = n →
    (receiveAll ch n).1 = ch.ringItems.map (fun v => (v, true)) ∧
    (receiveAll ch n).2.Inv ∧
    (receiveAll ch n).2.closed = true ∧
    (receiveAll ch n).2.sendWaiters = [] ∧
    (receiveAll ch n).2.count = 0 := by
  induction n with
  | zero =>
    intro ch h hcl hsw hcnt
    refine ⟨?_, h, hcl, hsw, hcnt⟩
    simp [receiveAll, ringItems, hcnt]
  | succ k ih =>
    intro ch h hcl hsw hcnt
    have hc : 0 < ch.count := by omega
    have hrecv : ch.receive 0 =
        (.value (ch.buffer.getD ch.head none) true,
          { ch with
            buffer := ch.buffer.set ch.head none
            head := (ch.head + 1) % ch.capacity
            count := ch.count - 1 }, []) := by
      have hps := processSendWaiters_nil
        ({ ch with
            buffer := ch.buffer.set ch.head none
            head := (ch.head + 1) % ch.capacity
            count := ch.count - 1 } : Channel α) (by exact hsw)
      simp only [receive, if_pos hc, hps]
    have hinv' := receive_inv ch 0 h
    rw [hrecv] at hinv'
    set ch' : Channel α :=
      { ch with
        buffer := ch.buffer.set ch.head none
        head := (ch.head + 1) % ch.capacity
        count := ch.count - 1 } with hch'
    obtain ⟨r1, r2, r3, r4, r5⟩ := ih ch' hinv' hcl hsw (by simp [hch']; omega)
    have hstep : receiveAll ch (k + 1) =
        ((ch.buffer.getD ch.head none, true) :: (receiveAll ch' k).1,
          (receiveAll ch' k).2) := by
      rw [receiveAll_succ, hrecv]
    rw [hstep]
    refine ⟨?_, r2, r3, r4, r5⟩
    rw [ringItems_take_step ch h hc, List.map_cons, r1]

end Channel

/-- C5: `close()` on an open channel resolves every currently blocked
receiver with `[undefined, false]` (in queue order); the values buffered
before the close stay receivable: the next `count` receives return exactly
the buffered values in FIFO order, each with `ok = true`, and only after
the buffer is drained does a receive return `ok = false`. -/
theorem C5_close_wakes_receivers_then_fifo_drain (ch : Channel α) (h : ch.Inv)
    (hopen : ch.closed = false) :
    ch.close.2 = ch.receiveWaiters.map (fun id => Ev.recvResolved id none false) ∧
    (Channel.receiveAll ch.close.1 ch.count).1 =
      ch.ringItems.map (fun v => (v, true)) ∧
    ((Channel.receiveAll ch.close.1 ch.count).2.receive 0).1 = .value none false := by
  have hcl : ch.close.1 =
      { ch with closed := true, sendWaiters := [], receiveWaiters := [] } := by
    simp [Channel.close, hopen]
  have hinv' : ch.close.1.Inv := Channel.close_inv ch h
  obtain ⟨r1, _, r3, r4, r5⟩ := Channel.drain_closed ch.count ch.close.1 hinv'
    (by rw [hcl]) (by rw [hcl]) (by rw [hcl])
  refine ⟨by simp [Channel.close, hopen], ?_, ?_⟩
  · rw [r1, hcl]; rfl
  · rw [(Channel.receive_closed_empty _ 0 r5 r4 r3 :
      ((Channel.receiveAll ch.close.1 ch.count).2.receive 0) = _)]

/-- Witness for `C5_close_wakes_receivers_then_fifo_drain` on a capacity-2
channel holding the buffered values 10 and 20. -/
theorem C5_close_wakes_receivers_then_fifo_drain_witness :
    (Channel.mk [some 10, some 20] 2 0 0 2 false [] [] : Channel Nat).Inv ∧
    (Channel.mk [some 10, some 20] 2 0 0 2 false [] [] : Channel Nat).closed = false ∧
    ((Channel.mk [some 10, some 20] 2 0 0 2 false [] [] : Channel Nat).close.2 =
        ([] : List Nat).map (fun id => Ev.recvResolved id none false) ∧
      (Channel.receiveAll
          (Channel.mk [some 10, some 20] 2 0 0 2 false [] [] : Channel Nat).close.1 2).1 =
        (Channel.mk [some 10, some 20] 2 0 0 2 false [] [] : Channel Nat).ringItems.map
          (fun v => (v, true)) ∧
      ((Channel.receiveAll
          (Channel.mk [some 10, some 20] 2 0 0 2 false [] [] : Channel Nat).close.1
          2).2.receive 0).1 = .value none false) :=
  ⟨by decide, rfl,
    C5_close_wakes_receivers_then_fifo_drain
      (Channel.mk [some 10, some 20] 2 0 0 2 false [] []) (by decide) rfl⟩

namespace Channel

/-- Filling an open capacity-`C` channel with no waiters by consecutive
`trySend`s: as long as the buffer has room, every `trySend` succeeds and
the buffer accumulates the sent values in order. -/
lemma trySendN_fill (C : Nat) (pend : List α) :
    ∀ sent : List α, sent.length + pend.length ≤ C →
    trySendN (⟨sent.map some ++ List.replicate (C - sent.length) none, C, 0,
        sent.length % C, sent.length, false, [], []⟩ : Channel α) pend =
      (List.replicate pend.length true,
        ⟨(sent ++ pend).map some ++ List.replicate (C - (sent ++ pend).length) none,
          C, 0, (sent ++ pend).length % C, (sent ++ pend).length, false, [], []⟩) := by
  induction pend with
  | nil => intro sent h; simp [trySendN]
  | cons v rest ih =>
    intro sent h
    have hlen : sent.length < C := by
      have := List.length_cons v rest ▸ h; omega
    have hC : 0 < C := by omega
    have hmod : sent.length % C = sent.length := Nat.mod_eq_of_lt hlen
    have hbuf : (sent.map some ++ List.replicate (C - sent.length) none).set
        sent.length (some v) =
        (sent ++ [v]).map some ++ List.replicate (C - (sent.length + 1)) none := by
      obtain ⟨m, hm⟩ : ∃ m, C - sent.length = m + 1 := ⟨C - sent.length - 1, by omega⟩
      rw [hm, List.set_append_right _ _ (by simp), List.replicate_succ]
      simp only [List.length_map, Nat.sub_self, List.set_cons_zero, List.map_append]
      rw [List.append_cons]
      congr 2
      omega
    have hone : trySend
        (⟨sent.map some ++ List.replicate (C - sent.length) none, C, 0,
          sent.length % C, sent.length, false, [], []⟩ : Channel α) v =
        (true, ⟨(sent ++ [v]).map some ++ List.replicate (C - (sent.length + 1)) none,
          C, 0, (sent.length + 1) % C, sent.length + 1, false, [], []⟩, []) := by
      simp only [trySend, bufWrite, if_neg (Bool.false_ne_true), hmod]
      rw [if_pos ⟨hC, hlen⟩]
      simp [hbuf, hmod]
    have ih' := ih (sent ++ [v]) (by simp at h ⊢; omega)
    simp only [trySendN, hone]
    rw [show (sent ++ [v]).length = sent.length + 1 by simp] at ih'
    rw [ih']
    simp [List.replicate_succ]

end Channel

/-- C6: a fresh channel of capacity `C > 0` with no receiver accepts
exactly `C` consecutive non-blocking sends — each `trySend` reports
success; the `(C+1)`-th `trySend` reports failure; and a single subsequent
`receive` completes immediately, returning the first value sent with
`ok = true`. -/
theorem C6_trySend_fills_then_fails_then_receive (C : Nat) (hC : 0 < C)
    (v : α) (rest : List α) (hlen : (v :: rest).length = C) (x : α) :
    (Channel.trySendN (Channel.new α C) (v :: rest)).1 = List.replicate C true ∧
    ((Channel.trySendN (Channel.new α C) (v :: rest)).2.trySend x).1 = false ∧
    ((Channel.trySendN (Channel.new α C) (v :: rest)).2.receive 0).1 =
      .value (some v) true := by
  have hnew : Channel.new α C =
      (⟨([] : List α).map some ++ List.replicate (C - ([] : List α).length) none, C, 0,
        ([] : List α).length % C, ([] : List α).length, false, [], []⟩ : Channel α) := by
    simp [Channel.new, hC]
  have hfill := Channel.trySendN_fill C (v :: rest) [] (by simp [hlen])
  rw [← hnew] at hfill
  rw [hfill]
  simp only [List.nil_append, hlen]
  refine ⟨trivial, ?_, ?_⟩
  · simp [Channel.trySend]
  · rw [Channel.receive_first
      (⟨(v :: rest).map some ++ List.replicate (C - C) none, C, 0,
        C % C, C, false, [], []⟩ : Channel α) hC rfl]
    rfl

/-- Witness for `C6_trySend_fills_then_fails_then_receive` at capacity 2. -/
theorem C6_trySend_fills_then_fails_then_receive_witness :
    0 < 2 ∧ ([10, 20] : List Nat).length = 2 ∧
    ((Channel.trySendN (Channel.new Nat 2) [10, 20]).1 = List.replicate 2 true ∧
      ((Channel.trySendN (Channel.new Nat 2) [10, 20]).2.trySend 30).1 = false ∧
      ((Channel.trySendN (Channel.new Nat 2) [10, 20]).2.receive 0).1 =
        .value (some 10) true) :=
  ⟨by decide, rfl,
    C6_trySend_fills_then_fails_then_receive 2 (by decide) 10 [20] rfl 30⟩

namespace OnceState

/-- Once a `Once` has committed to a promise (`#state ≠ 0`, `#promise`
stored), every later `do` call returns that same promise without starting
the guarded function, and the commitment survives every event. -/
lemma run_committed (p : Nat) (ops : List Op) : ∀ (o : OnceState) (n : Nat),
    o.promise = some p → o.state ≠ 0 →
    (∀ r ∈ (run o n ops).2, r.1 = p ∧ r.2 = false) ∧
    (run o n ops).1.promise = some p ∧ (run o n ops).1.state ≠ 0 := by
  induction ops with
  | nil =>
    intro o n hp hs
    exact ⟨by simp [run], hp, hs⟩
  | cons op rest ih =>
    intro o n hp hs
    cases op with
    | call =>
      have hdo : o.doCall n = (o, p, false) := by
        obtain ⟨st, pr⟩ := o
        dsimp only at hp hs
        subst hp
        by_cases h2 : st = 2
        · simp [doCall, h2]
        · simp [doCall, h2, hs]
      obtain ⟨i1, i2, i3⟩ := ih o (n + 1) hp hs
      refine ⟨?_, ?_, ?_⟩ <;> simp only [run, hdo] <;>
        first
        | exact i2
        | exact i3
        | (intro r hr
           rcases List.mem_cons.mp hr with h | h
           · subst h; exact ⟨rfl, rfl⟩
           · exact i1 r h)
    | finish =>
      have hfp : o.finish.promise = some p := by
        obtain ⟨st, pr⟩ := o; by_cases h1 : st = 1 <;> simp_all [OnceState.finish]
      have hfs : o.finish.state ≠ 0 := by
        obtain ⟨st, pr⟩ := o; by_cases h1 : st = 1 <;> simp_all [OnceState.finish]
      obtain ⟨i1, i2, i3⟩ := ih o.finish (n + 1) hfp hfs
      exact ⟨by simpa [run] using i1, by simpa [run] using i2, by simpa [run] using i3⟩

/-- From the idle state, either no `do` call ever happens, or the first
`do` call is the unique one that starts the guarded function, and every
later caller receives the promise that first call stored. -/
lemma run_idle (ops : List Op) : ∀ n : Nat,
    (run ⟨0, none⟩ n ops).2 = [] ∨
    ∃ p tl, (run ⟨0, none⟩ n ops).2 = (p, true) :: tl ∧
      ∀ r ∈ tl, r.1 = p ∧ r.2 = false := by
  induction ops with
  | nil => intro n; left; simp [run]
  | cons op rest ih =>
    intro n
    cases op with
    | finish =>
      have : (⟨0, none⟩ : OnceState).finish = ⟨0, none⟩ := by
        simp [OnceState.finish]
      rcases ih (n + 1) with h | ⟨p, tl, h1, h2⟩
      · left; simpa [run, this] using h
      · right; exact ⟨p, tl, by simpa [run, this] using h1, h2⟩
    | call =>
      right
      have hdo : (⟨0, none⟩ : OnceState).doCall n = (⟨1, some n⟩, n, true) := by
        simp [doCall]
      obtain ⟨i1, _, _⟩ := run_committed n rest ⟨1, some n⟩ (n + 1) rfl (by simp)
      exact ⟨n, (run ⟨1, some n⟩ (n + 1) rest).2, by simp [run, hdo], i1⟩

end OnceState

/-- C8: for every sequence of `Once.do` calls and invocation settlements,
the guarded function is started at most once in total, and every caller —
whether it arrives before, during or after the unique invocation — is
handed the identical memoized promise (hence observes the identical
outcome, a shared value or a shared thrown error). -/
theorem C8_once_single_invocation_shared_outcome (ops : List OnceState.Op) :
    (OnceState.run OnceState.init 0 ops).2.countP (fun r => r.2) ≤ 1 ∧
    ∀ r ∈ (OnceState.run OnceState.init 0 ops).2,
      ∀ r' ∈ (OnceState.run OnceState.init 0 ops).2, r.1 = r'.1 := by
  rcases OnceState.run_idle ops 0 with h | ⟨p, tl, h1, h2⟩
  · simp only [OnceState.init] at h ⊢
    rw [h]
    simp
  · simp only [OnceState.init] at h1 ⊢
    rw [h1]
    have hz : tl.countP (fun r => r.2) = 0 := by
      rw [List.countP_eq_zero]
      intro a ha
      simp [(h2 a ha).2]
    constructor
    · simp [List.countP_cons, hz]
    · intro r hr r' hr'
      have hid : ∀ s ∈ (p, true) :: tl, s.1 = p := by
        intro s hs
        rcases List.mem_cons.mp hs with h | h
        · subst h; rfl
        · exact (h2 s h).1
      rw [hid r hr, hid r' hr']

/-- Witness for `C8_once_single_invocation_shared_outcome` on the event
sequence call–call–settle–call: at most one start, and the first and last
caller hold the same promise. -/
theorem C8_once_single_invocation_shared_outcome_witness :
    (OnceState.run OnceState.init 0
        [.call, .call, .finish, .call]).2.countP (fun r => r.2) ≤ 1 ∧
    ((0, true) : Nat × Bool).1 = ((0, false) : Nat × Bool).1 :=
  ⟨(C8_once_single_invocation_shared_outcome [.call, .call, .finish, .call]).1,
    (C8_once_single_invocation_shared_outcome [.call, .call, .finish, .call]).2
      (0, true) (by decide) (0, false) (by decide)⟩

/-- If the classification pass encounters two default cases in total, it
throws `"select: multiple default cases not allowed"`. -/
lemma classify_two_defaults (cases : List (SelectCase α)) : ∀ seen : Bool,
    2 ≤ cases.countP SelectCase.isDefault + (if seen then 1 else 0) →
    classifyCases cases seen = .error "select: multiple default cases not allowed" := by
  induction cases with
  | nil => intro seen h; simp at h; split at h <;> omega
  | cons c rest ih =>
    intro seen h
    cases c with
    | dflt =>
      by_cases hs : seen
      · simp [classifyCases, hs]
      · simp only [classifyCases, if_neg hs]
        refine ih true ?_
        simp only [List.countP_cons, SelectCase.isDefault] at h ⊢
        split at h <;> simp_all
    | recv ch =>
      have := ih seen (by simpa [List.countP_cons, SelectCase.isDefault] using h)
      simp [classifyCases, this, Except.map]
    | send ch v =>
      have := ih seen (by simpa [List.countP_cons, SelectCase.isDefault] using h)
      simp [classifyCases, this, Except.map]

/-- With at most one default case in total, the classification pass
succeeds; its `hasDefault` flag records whether a default was present, and
its receive / send buckets only contain channels drawn from the
corresponding cases of the input list. -/
lemma classify_single_default (cases : List (SelectCase α)) : ∀ seen : Bool,
    cases.countP SelectCase.isDefault + (if seen then 1 else 0) ≤ 1 →
    ∃ r, classifyCases cases seen = .ok r ∧
      r.hasDefault = (decide (0 < cases.countP SelectCase.isDefault) || seen) ∧
      (∀ ch ∈ r.recvs, SelectCase.recv ch ∈ cases) ∧
      (∀ p ∈ r.sends, SelectCase.send p.1 p.2 ∈ cases) := by
  induction cases with
  | nil =>
    intro seen h
    exact ⟨⟨[], [], seen⟩, rfl, by simp, by simp, by simp⟩
  | cons c rest ih =>
    intro seen h
    cases c with
    | dflt =>
      have hs : seen = false := by
        by_contra hs
        simp only [List.countP_cons, SelectCase.isDefault] at h
        simp_all
      subst hs
      have hcnt : rest.countP SelectCase.isDefault = 0 := by
        simp only [List.countP_cons, SelectCase.isDefault] at h
        simp_all
      obtain ⟨r, h1, h2, h3, h4⟩ := ih true (by simp [hcnt])
      refine ⟨r, by simp [classifyCases, h1, Except.map], ?_, ?_, ?_⟩
      · simp [h2, List.countP_cons, SelectCase.isDefault]
      · exact fun ch hch => List.mem_cons_of_mem _ (h3 ch hch)
      · exact fun p hp => List.mem_cons_of_mem _ (h4 p hp)
    | recv ch' =>
      obtain ⟨r, h1, h2, h3, h4⟩ := ih seen
        (by simpa [List.countP_cons, SelectCase.isDefault] using h)
      refine ⟨{ r with recvs := ch' :: r.recvs }, by simp [classifyCases, h1, Except.map], ?_, ?_, ?_⟩
      · simpa [List.countP_cons, SelectCase.isDefault] using h2
      · intro ch hch
        rcases List.mem_cons.mp hch with hch | hch
        · subst hch; exact List.mem_cons_self _ _
        · exact List.mem_cons_of_mem _ (h3 ch hch)
      · exact fun p hp => List.mem_cons_of_mem _ (h4 p hp)
    | send ch' v' =>
      obtain ⟨r, h1, h2, h3, h4⟩ := ih seen
        (by simpa [List.countP_cons, SelectCase.isDefault] using h)
      refine ⟨{ r with sends := (ch', v') :: r.sends }, by simp [classifyCases, h1, Except.map], ?_, ?_, ?_⟩
      · simpa [List.countP_cons, SelectCase.isDefault] using h2
      · exact fun ch hch => List.mem_cons_of_mem _ (h3 ch hch)
      · intro p hp
        rcases List.mem_cons.mp hp with hp | hp
        · subst hp; exact List.mem_cons_self _ _
        · exact List.mem_cons_of_mem _ (h4 p hp)

/-- C9: a `select` whose case list contains one default case, where no
receive case's channel has data immediately available (`hasData` false)
and no send case's channel can send immediately (`canSend` false), takes
the default fast path: the default action executes and the racing phase —
the only place where channel operations are started or suspended — is
never reached. -/
theorem C9_select_default_when_nothing_ready (cases : List (SelectCase α))
    (hone : cases.countP SelectCase.isDefault = 1)
    (hrecv : ∀ ch : Channel α, SelectCase.recv ch ∈ cases → ch.hasData = false)
    (hsend : ∀ (ch : Channel α) (v : α), SelectCase.send ch v ∈ cases →
      ch.canSend = false) :
    selectSync cases = .defaultRan := by
  obtain ⟨r, h1, h2, h3, h4⟩ := classify_single_default cases false (by simp [hone])
  have hne : cases.length ≠ 0 := by
    intro h0
    rw [List.length_eq_zero.mp h0] at hone
    simp at hone
  have hdef : r.hasDefault = true := by simp [h2, hone]
  have hnoready : (r.recvs.any Channel.hasData ||
      r.sends.any fun p => p.1.canSend) = false := by
    rw [Bool.or_eq_false_iff]
    constructor
    · rw [List.any_eq_false]
      intro ch hch
      simp [hrecv ch (h3 ch hch)]
    · rw [List.any_eq_false]
      intro p hp
      simp [hsend p.1 p.2 (h4 p hp)]
  simp [selectSync, hne, h1, hdef, hnoready]

/-- Witness for `C9_select_default_when_nothing_ready`: one receive case
on a fresh empty channel plus one default case. -/
theorem C9_select_default_when_nothing_ready_witness :
    selectSync [SelectCase.recv (Channel.new Nat 1), SelectCase.dflt] =
      .defaultRan := by
  refine C9_select_default_when_nothing_ready _ (by decide) ?_ ?_
  · intro ch h
    rcases List.mem_cons.mp h with h1 | h1
    · cases h1; decide
    · rcases List.mem_singleton.mp h1 with ⟨⟩
  · intro ch v h
    rcases List.mem_cons.mp h with h1 | h1
    · cases h1
    · rcases List.mem_singleton.mp h1 with ⟨⟩

/-- C10: `select` validates its input before touching any channel: an
empty case list fails with `"select: no cases provided"`, and a case list
holding two or more default cases fails with
`"select: multiple default cases not allowed"`; either error is raised by
the synchronous validation prefix, before any case's action runs and
before any channel operation is started. -/
theorem C10_select_validates_input (α : Type) :
    selectSync ([] : List (SelectCase α)) = .error "select: no cases provided" ∧
    ∀ cases : List (SelectCase α), 2 ≤ cases.countP SelectCase.isDefault →
      selectSync cases = .error "select: multiple default cases not allowed" := by
  constructor
  · simp [selectSync]
  · intro cases h
    have hne : cases.length ≠ 0 := by
      intro h0
      rw [List.length_eq_zero.mp h0] at h
      simp at h
    have := classify_two_defaults cases false (by simpa using h)
    simp [selectSync, hne, this]

/-- Witness for `C10_select_validates_input`: the empty list and a list of
two default cases. -/
theorem C10_select_validates_input_witness :
    selectSync ([] : List (SelectCase Nat)) = .error "select: no cases provided" ∧
    selectSync ([SelectCase.dflt, SelectCase.dflt] : List (SelectCase Nat)) =
      .error "select: multiple default cases not allowed" :=
  ⟨(C10_select_validates_input Nat).1,
    (C10_select_validates_input Nat).2 [SelectCase.dflt, SelectCase.dflt] (by decide)⟩

/-- C1: the claim says `close()` settles every queued sender's pending send
with a Closed error.  The code does not: closing a channel that holds a
queued sender (here a rendezvous channel with one pending `send 42`) clears
`#sendWaiters` without emitting any settlement event — the send promise
stays pending forever and the queued value 42 is dropped from the state. -/
theorem C1_close_leaves_queued_sender_unsettled :
    ((Channel.new Nat 0).send 42 0).1 = .pending ∧
    ((Channel.new Nat 0).send 42 0).2.1.sendWaiters = [⟨0, 42⟩] ∧
    ((Channel.new Nat 0).send 42 0).2.1.close =
      (⟨[], 0, 0, 0, 0, true, [], []⟩, []) := by
  decide

/-- C2 counterexample: a context completed cleanly (`watchPromise`'s
resolution path calls `cancel(undefined)`, so the context is Done with an
absent cause) does not keep its absent cause — a later `cancel(e)` passes
the `#err !== undefined` guard and installs `e` as the cause. -/
theorem C2_counterexample_clean_then_error :
    (watchPromiseSettle Ctx.init none).settled = true ∧
    (watchPromiseSettle Ctx.init none).err = none ∧
    ((watchPromiseSettle Ctx.init none).cancel (some (some (.other "boom")))).err =
      some (.other "boom") := by
  decide

/-- C2 (amended): once a context is Done with a concrete (defined) error
cause, every later `cancel` call — with any argument shape — is a no-op,
so that cause never changes.  (A context Done with an absent cause is not
protected: see the counterexample.) -/
theorem C2_done_with_error_cause_immutable (c : Ctx) (e : Err)
    (a : Option (Option Err)) (h : c.err = some e) : c.cancel a = c := by
  simp [Ctx.cancel, h]

/-- Witness for `C2_done_with_error_cause_immutable` at a concrete Done
context. -/
theorem C2_done_with_error_cause_immutable_witness :
    (Ctx.mk (some (.other "x")) true).err = some (.other "x") ∧
    (Ctx.mk (some (.other "x")) true).cancel none = Ctx.mk (some (.other "x")) true :=
  ⟨rfl, C2_done_with_error_cause_immutable _ (.other "x") none rfl⟩

/-- C3: a child derived from a parent that is already Done with a concrete
error cause adopts that cause synchronously — the constructor itself calls
`cancel(parentErr)`, so the state returned by the derivation already
carries the parent's cause and a settled completion signal. -/
theorem C3_child_adopts_done_parent_cause_synchronously (e : Err) :
    (mkChild (some e)).err = some e ∧ (mkChild (some e)).settled = true := by
  simp [mkChild, Ctx.cancel, Ctx.init]

/-- C7: on a capacity-0 channel with no receiver present (and no other
queued sender), `send` settles nothing and leaves the sender queued
(pending); the next `receive` hands the value off directly — it returns
`[value, true]`, resolves the pending send, and the buffer and count are
never touched (the final state equals the original channel). -/
theorem C7_rendezvous_send_then_receive (ch : Channel α) (v : α) (fresh : Nat)
    (hcap : ch.capacity = 0) (hrw : ch.receiveWaiters = [])
    (hsw : ch.sendWaiters = []) (hcl : ch.closed = false) (hcnt : ch.count = 0) :
    ch.send v fresh = (.pending, { ch with sendWaiters := [⟨fresh, v⟩] }, []) ∧
    ({ ch with sendWaiters := [⟨fresh, v⟩] } : Channel α).receive 0 =
      (.value (some v) true, ch, [.sendResolved fresh]) := by
  obtain ⟨buf, cap, hd, tl, cnt, cl, sw, rw⟩ := ch
  simp_all [Channel.send, Channel.receive]

/-- Witness for `C7_rendezvous_send_then_receive` on a fresh rendezvous
channel. -/
theorem C7_rendezvous_send_then_receive_witness :
    (Channel.new Nat 0).capacity = 0 ∧
    (Channel.new Nat 0).receiveWaiters = [] ∧
    (Channel.new Nat 0).sendWaiters = [] ∧
    (Channel.new Nat 0).closed = false ∧
    (Channel.new Nat 0).count = 0 ∧
    ((Channel.new Nat 0).send 5 0 =
        (.pending, { Channel.new Nat 0 with sendWaiters := [⟨0, 5⟩] }, []) ∧
      ({ Channel.new Nat 0 with sendWaiters := [⟨0, 5⟩] } : Channel Nat).receive 0 =
        (.value (some 5) true, Channel.new Nat 0, [.sendResolved 0])) :=
  ⟨rfl, rfl, rfl, rfl, rfl,
    C7_rendezvous_send_then_receive (Channel.new Nat 0) 5 0 rfl rfl rfl rfl rfl⟩

end Golikejs
